import Mathlib

/-
Verification of the playback orchestration and prefetch-cache subsystem of
the Storyteller repository (src/App.tsx, src/types.ts, src/services).

The TypeScript code is shallowly embedded: JavaScript Maps become
insertion-ordered association lists, Promises become explicit settlement
steps, React state updates become explicit state-passing, and the values a
useCallback closure captures across an `await` are passed explicitly, since
an in-flight invocation keeps observing the values from the render in which
the callback was memoized.
-/

/- JavaScript String.prototype.trim: remove leading and trailing
whitespace from the character sequence. -/
def jsTrim (s : String) : String :=
  String.mk (((s.data.dropWhile Char.isWhitespace).reverse.dropWhile
      Char.isWhitespace).reverse)

/-- LRU cache for synthesized audio, embedding class AudioLRUCache
(App.tsx lines 497-537).  The private JS Map is modelled as an
insertion-ordered association list (oldest first) with unique keys; since a
JS Map never holds two entries with the same key, Map.delete of a key is
modelled as filtering out every pair with that key. -/
structure AudioLRUCache (V : Type) where
  cache : List (Nat × V)
  capacity : Nat
deriving DecidableEq

/-- `has(key)` (App.tsx line 526-528). -/
def AudioLRUCache.has {V : Type} (c : AudioLRUCache V) (key : Nat) : Bool :=
  c.cache.any (fun p => p.1 == key)

/-- `get(key)` (App.tsx lines 506-513): if absent return undefined;
otherwise delete and re-set the entry to mark it as most recently used and
return its value.  The updated map is returned alongside the result. -/
def AudioLRUCache.get {V : Type} (c : AudioLRUCache V) (key : Nat) :
    Option V × AudioLRUCache V :=
  match c.cache.find? (fun p => p.1 == key) with
  | none => (none, c)
  | some pv =>
      (some pv.2,
        { c with cache := c.cache.filter (fun p => p.1 != key) ++ [(key, pv.2)] })

/-- `set(key, value)` (App.tsx lines 515-524): delete an existing entry for
the key; otherwise, at capacity, evict the oldest entry (the first key of
the Map, when one exists); then insert at the end. -/
def AudioLRUCache.set {V : Type} (c : AudioLRUCache V) (key : Nat) (value : V) :
    AudioLRUCache V :=
  let base :=
    if c.cache.any (fun p => p.1 == key) then
      c.cache.filter (fun p => p.1 != key)
    else if c.capacity ≤ c.cache.length then
      c.cache.tail
    else
      c.cache
  { c with cache := base ++ [(key, value)] }

/-- `delete(key)` (App.tsx lines 530-532). -/
def AudioLRUCache.delete {V : Type} (c : AudioLRUCache V) (key : Nat) :
    AudioLRUCache V :=
  { c with cache := c.cache.filter (fun p => p.1 != key) }

/-- `clear()` (App.tsx lines 534-536). -/
def AudioLRUCache.clear {V : Type} (c : AudioLRUCache V) : AudioLRUCache V :=
  { c with cache := [] }

/-- `new AudioLRUCache(capacity)` (App.tsx lines 501-504). -/
def AudioLRUCache.empty (V : Type) (capacity : Nat) : AudioLRUCache V :=
  { cache := [], capacity := capacity }

/-- Observation: number of entries (Map.size). -/
def AudioLRUCache.size {V : Type} (c : AudioLRUCache V) : Nat :=
  c.cache.length

/-- Observation: the value stored for a key, without the recency refresh
that `get` performs (Map.get). -/
def AudioLRUCache.lookup {V : Type} (c : AudioLRUCache V) (key : Nat) : Option V :=
  (c.cache.find? (fun p => p.1 == key)).map (fun p => p.2)

/-- Observation: the keys in recency order (oldest first). -/
def AudioLRUCache.keys {V : Type} (c : AudioLRUCache V) : List Nat :=
  c.cache.map Prod.fst

/-- One cache operation, as offered by the class interface. -/
inductive LRUOp (V : Type) where
  | getOp (key : Nat)
  | setOp (key : Nat) (value : V)
  | deleteOp (key : Nat)
  | clearOp

/-- Apply one interface operation to the cache. -/
def AudioLRUCache.applyOp {V : Type} (c : AudioLRUCache V) :
    LRUOp V → AudioLRUCache V
  | .getOp k => (c.get k).2
  | .setOp k v => c.set k v
  | .deleteOp k => c.delete k
  | .clearOp => c.clear

/-- Apply a sequence of interface operations to the cache. -/
def AudioLRUCache.applyOps {V : Type} (c : AudioLRUCache V)
    (ops : List (LRUOp V)) : AudioLRUCache V :=
  ops.foldl AudioLRUCache.applyOp c

/-- Insert a sequence of key-value pairs with `set`. -/
def AudioLRUCache.insertAll {V : Type} (c : AudioLRUCache V)
    (kvs : List (Nat × V)) : AudioLRUCache V :=
  kvs.foldl (fun acc kv => acc.set kv.1 kv.2) c

/-- The observable identity of a Promise stored in the audio cache.
`producerId` records which invocation of processGeminiSentence produced it
(invocations are numbered in order); `deleteOnFailure` records whether a
.catch handler that deletes the cache entry is attached to the stored
promise — prefetchGeminiSentence attaches one (App.tsx lines 682-687), the
playSentence cache-miss path does not (App.tsx lines 750-751). -/
structure CachedPromise where
  producerId : Nat
  deleteOnFailure : Bool
deriving DecidableEq

/-- The audio cache together with a count of how many times the producer
(processGeminiSentence) has been invoked. -/
structure PrefetchState where
  audioCache : AudioLRUCache CachedPromise
  producerCalls : Nat
deriving DecidableEq

/-- prefetchGeminiSentence (App.tsx lines 677-689): return if the index is
past the end of the segments or already cached; otherwise invoke the
producer, attach the catch handler that deletes the entry on failure, and
store the promise. -/
def prefetchGeminiSentence (len : Nat) (s : PrefetchState) (index : Nat) :
    PrefetchState :=
  if len ≤ index then s
  else if s.audioCache.has index then s
  else
    { audioCache :=
        s.audioCache.set index
          { producerId := s.producerCalls, deleteOnFailure := true },
      producerCalls := s.producerCalls + 1 }

/-- The cache interaction of playSentence's google branch for an in-range
index (App.tsx lines 744-755): `get` the entry (refreshing its recency); on
a miss, invoke the producer and store the promise, without a catch handler
that would delete the entry. -/
def playSentenceEnsure (s : PrefetchState) (index : Nat) : PrefetchState :=
  match s.audioCache.get index with
  | (some _, refreshed) => { s with audioCache := refreshed }
  | (none, _) =>
      { audioCache :=
          s.audioCache.set index
            { producerId := s.producerCalls, deleteOnFailure := false },
        producerCalls := s.producerCalls + 1 }

/-- Rejection of the promise stored for `index`: the catch handler attached
by prefetchGeminiSentence deletes the entry (App.tsx line 685); a promise
stored by the playSentence path has no such handler, so the cache is left
unchanged (the error is only handled locally at the await site, App.tsx
lines 786-792, which does not touch the cache). -/
def settleProducerFailure (s : PrefetchState) (index : Nat) : PrefetchState :=
  match s.audioCache.lookup index with
  | some entry =>
      if entry.deleteOnFailure then { s with audioCache := s.audioCache.delete index }
      else s
  | none => s

/-- Which code path issues an ensure-style request for an index. -/
inductive EnsureKind where
  | viaPrefetch
  | viaPlay

/-- One ensure-style request for `index` through either path. -/
def ensureStep (len : Nat) (index : Nat) (s : PrefetchState) :
    EnsureKind → PrefetchState
  | .viaPrefetch => prefetchGeminiSentence len s index
  | .viaPlay => playSentenceEnsure s index

/-- A sequence of ensure-style requests for the same index. -/
def ensureRun (len : Nat) (index : Nat) (s : PrefetchState)
    (kinds : List EnsureKind) : PrefetchState :=
  kinds.foldl (ensureStep len index) s

/-- PlaybackState (types.ts lines 223-228 of the combined sources):
currentIndex is an integer with -1 as the "not yet started" sentinel. -/
structure PlaybackState where
  isPlaying : Bool
  isLoading : Bool
  currentIndex : Int
  detectedEmotion : Option String
deriving DecidableEq

/-- The live audio-output resources held in refs: the browser speech
synthesis, the HTMLAudioElement used for OpenAI, and the
AudioBufferSourceNode used for Gemini (App.tsx lines 581-584). -/
structure AudioRefs where
  synthSpeaking : Bool
  audioElem : Bool
  sourceNode : Bool
deriving DecidableEq

/-- The scheduler-owned state: the PlaybackState record, the output-device
refs, and a count of audio-device activations (calls to source.start(),
audio.play() or speechSynthesis.speak()). -/
structure AppState where
  playback : PlaybackState
  refs : AudioRefs
  audioStarts : Nat
deriving DecidableEq

/-- stopAudio (App.tsx lines 693-712): cancel browser TTS, pause and drop
the OpenAI audio element, stop and drop the Gemini source node, then set
isPlaying and isLoading to false and clear the detected emotion. -/
def stopAudio (s : AppState) : AppState :=
  { s with
    refs := { synthSpeaking := false, audioElem := false, sourceNode := false },
    playback :=
      { s.playback with
        isPlaying := false, isLoading := false, detectedEmotion := none } }

/-- playNext (App.tsx lines 714-723): advance to the next index if it is in
range; otherwise stop playing and reset the index to 0. -/
def playNext (len : Nat) (p : PlaybackState) : PlaybackState :=
  let nextIndex := p.currentIndex + 1
  if nextIndex < (len : Int) then { p with currentIndex := nextIndex }
  else { p with isPlaying := false, currentIndex := 0 }

/-- The entry section of playSentence (App.tsx lines 725-732): reject an
index outside the segment range with no effect; treat a segment whose text
trims to the empty string as completed (playNext) without reaching any
engine.  The boolean records whether execution proceeds to the
stop-previous-audio and engine-specific section, i.e. whether any synthesis
backend can be engaged at all for this call. -/
def playSentenceEntry (segments : List String) (index : Int)
    (p : PlaybackState) : PlaybackState × Bool :=
  if index < 0 ∨ (segments.length : Int) ≤ index then (p, false)
  else
    let text := segments.getD index.toNat ""
    if jsTrim text = "" then (playNext segments.length p, false)
    else (p, true)

/-- The values an in-flight google-branch playSentence invocation observes
after its `await`: the `index` argument and the `playback.isPlaying` value
captured by the useCallback closure of the render that memoized the
callback.  A state update that happens while the invocation is suspended is
not visible through this closure. -/
structure PlayClosure where
  index : Int
  isPlayingAtCapture : Bool
deriving DecidableEq

/-- The playback-triggering effect (App.tsx lines 846-860): when isPlaying
holds, record the current index in activeIndexRef before scheduling
playSentence. -/
def armEffect (s : AppState) (activeIndexRef : Int) : Int :=
  if s.playback.isPlaying then s.playback.currentIndex else activeIndexRef

/-- The closure the scheduled playSentence call captures when the arming
effect fires (App.tsx lines 852-857 calling line 725). -/
def captureClosure (s : AppState) : PlayClosure :=
  { index := s.playback.currentIndex, isPlayingAtCapture := s.playback.isPlaying }

/-- The cache-miss Loading transition of the google branch (App.tsx
line 748): setPlayback isLoading := true. -/
def geminiBeginLoad (s : AppState) : AppState :=
  { s with playback := { s.playback with isLoading := true } }

/-- The continuation of the google branch of playSentence after `await
itemPromise` resolves successfully (App.tsx lines 764-784): return if
activeIndexRef no longer equals the index; return if the closure-captured
isPlaying is false; otherwise clear isLoading, surface the emotion, install
a new source node and start it (one audio-device activation). -/
def geminiResolveSuccess (activeIndexRef : Int) (closure : PlayClosure)
    (emotion : String) (s : AppState) : AppState :=
  if activeIndexRef != closure.index then s
  else if !closure.isPlayingAtCapture then s
  else
    { s with
      playback :=
        { s.playback with isLoading := false, detectedEmotion := some emotion },
      refs := { s.refs with sourceNode := true },
      audioStarts := s.audioStarts + 1 }

/-- togglePlay (App.tsx lines 937-948): with no segments do nothing; when
playing, stopAudio; otherwise start playing, normalizing the -1 sentinel
index to 0. -/
def togglePlay (len : Nat) (s : AppState) : AppState :=
  if len = 0 then s
  else if s.playback.isPlaying then stopAudio s
  else
    { s with
      playback :=
        { s.playback with
          isPlaying := true,
          currentIndex :=
            if s.playback.currentIndex = -1 then 0 else s.playback.currentIndex } }

/-- The initial state of the app (App.tsx lines 546-550): nothing playing,
index at the -1 sentinel, no live output, no device activation yet. -/
def initialAppState : AppState :=
  { playback :=
      { isPlaying := false, isLoading := false, currentIndex := -1,
        detectedEmotion := none },
    refs := { synthSpeaking := false, audioElem := false, sourceNode := false },
    audioStarts := 0 }

/-- Scenario D, step 1: the user presses play on a one-segment document. -/
def scenarioD_armed : AppState := togglePlay 1 initialAppState

/-- Scenario D: the activeIndexRef value after the arming effect fires. -/
def scenarioD_token : Int := armEffect scenarioD_armed (-1)

/-- Scenario D: the closure the invoked playSentence captures. -/
def scenarioD_closure : PlayClosure := captureClosure scenarioD_armed

/-- Scenario D, step 2: playSentence(0) misses the cache, sets isLoading
and suspends awaiting the synthesis promise. -/
def scenarioD_loading : AppState := geminiBeginLoad scenarioD_armed

/-- Scenario D, step 3: the user presses stop before the synthesis
resolves.  stopAudio does not modify activeIndexRef, and the suspended
invocation keeps its captured closure. -/
def scenarioD_stopped : AppState := stopAudio scenarioD_loading

/-- Scenario D, step 4: the pending synthesis for index 0 resolves and the
suspended invocation resumes with the unchanged token and closure. -/
def scenarioD_resolved : AppState :=
  geminiResolveSuccess scenarioD_token scenarioD_closure "Calm" scenarioD_stopped

/-- VoiceEngine (types.ts line 211). -/
inductive VoiceEngine where
  | browser
  | openai
  | google
deriving DecidableEq

/-- AppSettings (types.ts lines 213-221). -/
structure AppSettings where
  engine : VoiceEngine
  browserVoice : Option String
  openaiKey : String
  openaiVoice : String
  googleVoice : String
  rate : ℚ
  pitch : ℚ
deriving DecidableEq

/-- The cache-clearing effect with dependency array
[settings.googleVoice, settings.engine] (App.tsx lines 623-626): after a
settings update, React runs the effect body (audioCache.current.clear())
exactly when one of the two dependencies changed. -/
def settingsCacheClearEffect (oldS newS : AppSettings)
    (c : AudioLRUCache CachedPromise) : AudioLRUCache CachedPromise :=
  if newS.googleVoice = oldS.googleVoice ∧ newS.engine = oldS.engine then c
  else c.clear

/-- The observable result of the generateContent call inside detectEmotion:
the call rejects, or resolves with an optional text. -/
inductive GeminiTextResponse where
  | failure
  | success (text : Option String)
deriving DecidableEq

/-- detectEmotion (services/gemini.ts lines 13-44), with the network call
abstracted into its observable result: on resolution the function returns
`response.text?.trim() || 'Neutral'` — Neutral when the text is absent or
trims to the empty string (a falsy value under JavaScript ||), the trimmed
text otherwise; any rejection is caught and yields Neutral.  The embedding
is a total function into String: the operation always resolves. -/
def detectEmotion (response : GeminiTextResponse) : String :=
  match response with
  | .failure => "Neutral"
  | .success none => "Neutral"
  | .success (some t) => if jsTrim t = "" then "Neutral" else jsTrim t

/-- DataView.getInt16(offset, true): read two bytes little-endian and
interpret them as a signed 16-bit integer.  Out-of-range reads are modelled
with default byte 0; the theorems only use in-range offsets. -/
def getInt16LE (bytes : List Nat) (offset : Nat) : Int :=
  let lo := bytes.getD offset 0
  let hi := bytes.getD (offset + 1) 0
  let u := lo + 256 * hi
  if u < 32768 then (u : Int) else (u : Int) - 65536

/-- decodeGeminiAudio (services/gemini.ts lines 93-119): the produced mono
channel data as a list of samples.  numSamples = floor(byteLength / 2); the
loop writes sample i from the little-endian int16 at byte offset 2*i,
divided by 32768, guarded by offset+1 < byteLength (a sample whose bytes
would be out of range is left at the zero the buffer was created with).
Sample values are rationals: every value the code produces, int16 / 2^15,
is exactly representable in the Float32Array the code writes to, so
rational arithmetic is an exact model of the floating-point division. -/
def decodeGeminiAudio (bytes : List Nat) : List ℚ :=
  let numSamples := bytes.length / 2
  (List.range numSamples).map (fun i =>
    let offset := 2 * i
    if offset + 1 < bytes.length then (getInt16LE bytes offset : ℚ) / 32768
    else 0)

/-- Helper: a list filtered on key different from k holds no pair whose key
equals k. -/
theorem find?_filter_key_ne {V : Type} (l : List (Nat × V)) (k : Nat) :
    (l.filter (fun p => p.1 != k)).find? (fun p => p.1 == k) = none := by
  rw [List.find?_eq_none]
  intro x hx
  have h2 := (List.mem_filter.mp hx).2
  simp only [bne_iff_ne, ne_eq] at h2
  simp [h2]

/-- Helper: filtering away a present element strictly shrinks the list. -/
theorem length_filter_not_lt {α : Type} (l : List α) (q : α → Bool)
    (h : l.any q = true) :
    (l.filter (fun a => !(q a))).length < l.length := by
  induction l with
  | nil => simp at h
  | cons a t ih =>
      simp only [List.any_cons, Bool.or_eq_true] at h
      by_cases hq : q a
      · simp only [List.filter_cons, hq, Bool.not_true, List.length_cons]
        exact Nat.lt_succ_of_le (List.length_filter_le _ t)
      · have ht : t.any q = true := by
          rcases h with h | h
          · exact absurd h hq
          · exact h
        simp only [List.filter_cons, hq, Bool.not_false, List.length_cons,
          if_pos trivial]
        have := ih ht
        simpa using Nat.succ_lt_succ this

/-- Helper: a cache contains a key exactly when lookup finds a value. -/
theorem AudioLRUCache.has_eq_lookup_isSome {V : Type} (c : AudioLRUCache V)
    (k : Nat) : c.has k = (c.lookup k).isSome := by
  unfold AudioLRUCache.has AudioLRUCache.lookup
  cases hf : c.cache.find? (fun p => p.1 == k) with
  | none =>
      rw [List.find?_eq_none] at hf
      simp only [Option.map_none', Option.isSome_none]
      rw [← Bool.not_eq_true, List.any_eq_true]
      rintro ⟨x, hx, hpx⟩
      exact hf x hx hpx
  | some pv =>
      simp only [Option.map_some', Option.isSome_some]
      rw [List.any_eq_true]
      have hp := List.find?_some hf
      exact ⟨pv, List.mem_of_find?_eq_some hf, hp⟩

/-- Helper: `set` always makes the key retrievable with its new value. -/
theorem AudioLRUCache.lookup_set_self {V : Type} (c : AudioLRUCache V)
    (k : Nat) (v : V) : (c.set k v).lookup k = some v := by
  unfold AudioLRUCache.set AudioLRUCache.lookup
  simp only []
  have hbase :
      ∀ base : List (Nat × V),
        base.find? (fun p => p.1 == k) = none →
        ((base ++ [(k, v)]).find? (fun p => p.1 == k)).map (fun p => p.2) =
          some v := by
    intro base hnone
    rw [List.find?_append, hnone]
    simp [List.find?]
  split
  · exact hbase _ (find?_filter_key_ne c.cache k)
  · next hany =>
      rw [List.any_eq_true] at hany
      split
      · apply hbase
        rw [List.find?_eq_none]
        intro x hx
        have hxc : x ∈ c.cache := List.Sublist.mem hx (List.tail_sublist _)
        intro hpx
        exact hany ⟨x, hxc, hpx⟩
      · apply hbase
        rw [List.find?_eq_none]
        intro x hx
        intro hpx
        exact hany ⟨x, hx, hpx⟩

/-- Helper: `get` on an absent key returns undefined and leaves the cache
unchanged. -/
theorem AudioLRUCache.get_of_lookup_none {V : Type} (c : AudioLRUCache V)
    (k : Nat) (h : c.lookup k = none) : c.get k = (none, c) := by
  unfold AudioLRUCache.lookup at h
  unfold AudioLRUCache.get
  cases hf : c.cache.find? (fun p => p.1 == k) with
  | none => rfl
  | some pv => rw [hf] at h; simp at h

/-- Helper: `get` on a present key returns the stored value, and the
refreshed cache still stores that value for the key. -/
theorem AudioLRUCache.get_of_lookup_some {V : Type} (c : AudioLRUCache V)
    (k : Nat) (e : V) (h : c.lookup k = some e) :
    (c.get k).1 = some e ∧ (c.get k).2.lookup k = some e := by
  unfold AudioLRUCache.lookup at h
  rw [Option.map_eq_some'] at h
  obtain ⟨pv, hf, hpv⟩ := h
  unfold AudioLRUCache.get
  rw [hf]
  refine ⟨by simp [hpv], ?_⟩
  unfold AudioLRUCache.lookup
  simp only []
  rw [List.find?_append, find?_filter_key_ne]
  simp [List.find?, hpv]

/-- Helper: deleting a key removes it. -/
theorem AudioLRUCache.has_delete_self {V : Type} (c : AudioLRUCache V)
    (k : Nat) : (c.delete k).has k = false := by
  unfold AudioLRUCache.delete AudioLRUCache.has
  rw [← Bool.not_eq_true, List.any_eq_true]
  rintro ⟨x, hx, hpx⟩
  have h2 := (List.mem_filter.mp hx).2
  simp only [bne_iff_ne, ne_eq] at h2
  exact h2 (by simpa using hpx)

/-- Helper: `set` never changes the configured capacity. -/
theorem AudioLRUCache.capacity_set {V : Type} (c : AudioLRUCache V) (k : Nat)
    (v : V) : (c.set k v).capacity = c.capacity := rfl

/-- Helper: one interface operation never changes the configured
capacity. -/
theorem AudioLRUCache.capacity_applyOp {V : Type} (c : AudioLRUCache V)
    (op : LRUOp V) : (c.applyOp op).capacity = c.capacity := by
  cases op with
  | getOp k =>
      show ((c.get k).2).capacity = c.capacity
      unfold AudioLRUCache.get
      cases c.cache.find? (fun p => p.1 == k) <;> rfl
  | setOp k v => rfl
  | deleteOp k => rfl
  | clearOp => rfl

/-- Helper: `set` keeps the entry count within a positive capacity. -/
theorem AudioLRUCache.size_set_le {V : Type} (c : AudioLRUCache V) (k : Nat)
    (v : V) (hcap : 1 ≤ c.capacity) (h : c.size ≤ c.capacity) :
    (c.set k v).size ≤ c.capacity := by
  unfold AudioLRUCache.size at h ⊢
  unfold AudioLRUCache.set
  simp only [List.length_append, List.length_cons, List.length_nil]
  split
  · next hany =>
      have hlt : (c.cache.filter (fun p => p.1 != k)).length < c.cache.length := by
        have := length_filter_not_lt c.cache (fun p => p.1 == k) hany
        simpa [bne] using this
      omega
  · split
    · next hle =>
        have := List.length_tail c.cache
        omega
    · next hlt => omega

/-- Helper: `get` never grows the entry count. -/
theorem AudioLRUCache.size_get_le {V : Type} (c : AudioLRUCache V) (k : Nat) :
    (c.get k).2.size ≤ c.size := by
  unfold AudioLRUCache.size AudioLRUCache.get
  cases hf : c.cache.find? (fun p => p.1 == k) with
  | none => simp
  | some pv =>
      simp only [List.length_append, List.length_cons, List.length_nil]
      have hany : c.cache.any (fun p => p.1 == k) = true := by
        rw [List.any_eq_true]
        have hp := List.find?_some hf
        exact ⟨pv, List.mem_of_find?_eq_some hf, hp⟩
      have := length_filter_not_lt c.cache (fun p => p.1 == k) hany
      have hb : (c.cache.filter (fun p => p.1 != k)).length < c.cache.length := by
        simpa [bne] using this
      omega

/-- Helper: any single interface operation keeps the entry count within a
positive capacity. -/
theorem AudioLRUCache.size_applyOp_le {V : Type} (c : AudioLRUCache V)
    (op : LRUOp V) (hcap : 1 ≤ c.capacity) (h : c.size ≤ c.capacity) :
    (c.applyOp op).size ≤ c.capacity := by
  cases op with
  | getOp k =>
      show ((c.get k).2).size ≤ c.capacity
      exact le_trans (AudioLRUCache.size_get_le c k) h
  | setOp k v => exact AudioLRUCache.size_set_le c k v hcap h
  | deleteOp k =>
      show (c.delete k).size ≤ c.capacity
      have h1 := List.length_filter_le (fun p : Nat × V => p.1 != k) c.cache
      have h2 : (c.delete k).size = (c.cache.filter (fun p => p.1 != k)).length := rfl
      have h3 : c.size = c.cache.length := rfl
      omega
  | clearOp =>
      show (c.clear).size ≤ c.capacity
      have h2 : (c.clear).size = 0 := rfl
      omega

/-- Helper: a sequence of interface operations keeps the entry count within
a positive capacity. -/
theorem AudioLRUCache.size_applyOps_le {V : Type} :
    ∀ (ops : List (LRUOp V)) (c : AudioLRUCache V),
      1 ≤ c.capacity → c.size ≤ c.capacity →
      (c.applyOps ops).size ≤ c.capacity := by
  intro ops
  induction ops with
  | nil => intro c h1 h2; exact h2
  | cons op rest ih =>
      intro c h1 h2
      have hcapeq := AudioLRUCache.capacity_applyOp c op
      have hstep := AudioLRUCache.size_applyOp_le c op h1 h2
      have := ih (c.applyOp op) (by rw [hcapeq]; exact h1) (by rw [hcapeq]; exact hstep)
      rw [hcapeq] at this
      exact this

/-- Helper: `set` of a fresh key below capacity appends the entry. -/
theorem AudioLRUCache.set_cache_of_fresh_lt {V : Type} (c : AudioLRUCache V)
    (k : Nat) (v : V) (hk : c.has k = false) (hlen : c.size < c.capacity) :
    (c.set k v).cache = c.cache ++ [(k, v)] := by
  unfold AudioLRUCache.has at hk
  unfold AudioLRUCache.size at hlen
  unfold AudioLRUCache.set
  rw [if_neg (by simp [hk]), if_neg (by omega)]

/-- Helper: `set` of a fresh key at capacity drops the oldest entry and
appends the new one. -/
theorem AudioLRUCache.set_cache_of_fresh_full {V : Type} (c : AudioLRUCache V)
    (k : Nat) (v : V) (hk : c.has k = false) (hlen : c.capacity ≤ c.size) :
    (c.set k v).cache = c.cache.tail ++ [(k, v)] := by
  unfold AudioLRUCache.has at hk
  unfold AudioLRUCache.size at hlen
  unfold AudioLRUCache.set
  rw [if_neg (by simp [hk]), if_pos hlen]

/-- Helper: inserting a sequence of keys disjoint from the cache and from
each other leaves, in recency order, exactly the suffix of all keys that
fits the capacity. -/
theorem AudioLRUCache.insertAll_keys_drop {V : Type} :
    ∀ (kvs : List (Nat × V)) (c : AudioLRUCache V),
      1 ≤ c.capacity → c.size ≤ c.capacity →
      (c.keys ++ kvs.map Prod.fst).Nodup →
      (c.insertAll kvs).keys =
        (c.keys ++ kvs.map Prod.fst).drop (c.size + kvs.length - c.capacity) := by
  intro kvs
  induction kvs with
  | nil =>
      intro c hcap hsize hnodup
      have h0 : c.size - c.capacity = 0 := by omega
      simp [AudioLRUCache.insertAll, h0]
  | cons kv rest ih =>
      intro c hcap hsize hnodup
      obtain ⟨k, v⟩ := kv
      rw [List.map_cons] at hnodup
      have hmem : k ∉ c.keys := by
        rw [List.nodup_append] at hnodup
        intro hk
        exact hnodup.2.2 hk (List.mem_cons_self _ _)
      have hhas : c.has k = false := by
        rw [← Bool.not_eq_true]
        unfold AudioLRUCache.has
        rw [List.any_eq_true]
        rintro ⟨x, hx, hpx⟩
        exact hmem (List.mem_map.mpr ⟨x, hx, by simpa using hpx⟩)
      have hstep : AudioLRUCache.insertAll c ((k, v) :: rest) =
          AudioLRUCache.insertAll (c.set k v) rest := rfl
      rw [hstep]
      by_cases hlt : c.size < c.capacity
      · have hcache := AudioLRUCache.set_cache_of_fresh_lt c k v hhas hlt
        have hkeys : (c.set k v).keys = c.keys ++ [k] := by
          unfold AudioLRUCache.keys at *
          rw [hcache, List.map_append]
          rfl
        have hsize2 : (c.set k v).size = c.size + 1 := by
          unfold AudioLRUCache.size at *
          rw [hcache, List.length_append]
          rfl
        have hnodup2 : ((c.set k v).keys ++ rest.map Prod.fst).Nodup := by
          rw [hkeys, List.append_assoc, List.singleton_append]
          exact hnodup
        have hrec := ih (c.set k v) (le_trans hcap (le_of_eq rfl))
          (by rw [hsize2, AudioLRUCache.capacity_set]; omega) hnodup2
        rw [hrec, hkeys, AudioLRUCache.capacity_set, hsize2]
        rw [List.append_assoc, List.singleton_append]
        have harith : c.size + 1 + rest.length - c.capacity =
            c.size + ((k, v) :: rest).length - c.capacity := by
          simp only [List.length_cons]
          omega
        rw [harith]
        rfl
      · have hfull : c.capacity ≤ c.size := by omega
        have heq : c.size = c.capacity := by omega
        have hcache := AudioLRUCache.set_cache_of_fresh_full c k v hhas hfull
        have hkeys : (c.set k v).keys = c.keys.tail ++ [k] := by
          unfold AudioLRUCache.keys at *
          rw [hcache, List.map_append, ← List.map_tail]
          rfl
        have hlenkeys : c.keys.length = c.size := by
          unfold AudioLRUCache.keys AudioLRUCache.size
          exact List.length_map _ _
        obtain ⟨h0, t, ht⟩ : ∃ h0 t, c.keys = h0 :: t := by
          cases hck : c.keys with
          | nil =>
              exfalso
              rw [hck] at hlenkeys
              simp at hlenkeys
              omega
          | cons a b => exact ⟨a, b, rfl⟩
        have hsize2 : (c.set k v).size = c.capacity := by
          unfold AudioLRUCache.size at *
          rw [hcache, List.length_append, List.length_tail]
          simp only [List.length_cons, List.length_nil]
          omega
        have hnodup2 : ((c.set k v).keys ++ rest.map Prod.fst).Nodup := by
          rw [hkeys, ht]
          simp only [List.tail_cons, List.append_assoc, List.singleton_append]
          have hsub : (t ++ k :: rest.map Prod.fst).Sublist
              (h0 :: (t ++ k :: rest.map Prod.fst)) := List.sublist_cons_self _ _
          apply List.Nodup.sublist hsub
          rw [ht] at hnodup
          simpa using hnodup
        have hrec := ih (c.set k v) (by rw [AudioLRUCache.capacity_set]; exact hcap)
          (by rw [hsize2, AudioLRUCache.capacity_set]) hnodup2
        rw [hrec, hkeys, AudioLRUCache.capacity_set, hsize2, ht]
        have harith : c.capacity + rest.length - c.capacity = rest.length := by omega
        have harith2 : c.size + ((k, v) :: rest).length - c.capacity =
            rest.length + 1 := by
          simp only [List.length_cons]
          omega
        rw [harith, harith2]
        simp only [List.tail_cons, List.map_cons, List.cons_append,
          List.drop_succ_cons, List.append_assoc, List.singleton_append,
          List.nil_append]

/-- Helper: a prefetch request for an already-cached index does nothing. -/
theorem prefetchGeminiSentence_of_has (len : Nat) (s : PrefetchState)
    (index : Nat) (h : s.audioCache.has index = true) :
    prefetchGeminiSentence len s index = s := by
  unfold prefetchGeminiSentence
  by_cases hl : len ≤ index
  · rw [if_pos hl]
  · rw [if_neg hl, if_pos h]

/-- Helper: a play-path request for a cached index refreshes recency only:
the producer count and the stored value are unchanged. -/
theorem playSentenceEnsure_of_lookup_some (s : PrefetchState) (index : Nat)
    (e : CachedPromise) (h : s.audioCache.lookup index = some e) :
    (playSentenceEnsure s index).producerCalls = s.producerCalls
    ∧ (playSentenceEnsure s index).audioCache.lookup index = some e := by
  have hget := AudioLRUCache.get_of_lookup_some s.audioCache index e h
  unfold playSentenceEnsure
  cases hg : s.audioCache.get index with
  | mk o r =>
      rw [hg] at hget
      simp only at hget
      cases o with
      | none => exact absurd hget.1 (by simp)
      | some val =>
          have hval : val = e := by simpa using hget.1
          subst hval
          exact ⟨rfl, hget.2⟩

/-- Helper: a play-path request for an uncached index invokes the producer
once and stores a promise without the failure handler. -/
theorem playSentenceEnsure_of_lookup_none (s : PrefetchState) (index : Nat)
    (h : s.audioCache.lookup index = none) :
    playSentenceEnsure s index =
      { audioCache := s.audioCache.set index
          { producerId := s.producerCalls, deleteOnFailure := false },
        producerCalls := s.producerCalls + 1 } := by
  have hget := AudioLRUCache.get_of_lookup_none s.audioCache index h
  unfold playSentenceEnsure
  rw [hget]

/-- Helper: a prefetch for an uncached in-range index invokes the producer
once and stores a promise with the failure handler. -/
theorem prefetchGeminiSentence_of_lookup_none (len : Nat) (s : PrefetchState)
    (index : Nat) (h : s.audioCache.lookup index = none) (hlt : index < len) :
    prefetchGeminiSentence len s index =
      { audioCache := s.audioCache.set index
          { producerId := s.producerCalls, deleteOnFailure := true },
        producerCalls := s.producerCalls + 1 } := by
  have hhas : s.audioCache.has index = false := by
    rw [AudioLRUCache.has_eq_lookup_isSome, h]
    rfl
  unfold prefetchGeminiSentence
  rw [if_neg (by omega), if_neg (by simp [hhas])]

/-- Helper: every ensure-style request for an index whose entry is present
leaves the entry value and the producer count unchanged. -/
theorem ensureRun_stable (len index : Nat) :
    ∀ (kinds : List EnsureKind) (s : PrefetchState) (e : CachedPromise),
      s.audioCache.lookup index = some e →
      (ensureRun len index s kinds).producerCalls = s.producerCalls
      ∧ (ensureRun len index s kinds).audioCache.lookup index = some e := by
  intro kinds
  induction kinds with
  | nil => intro s e h; exact ⟨rfl, h⟩
  | cons kind rest ih =>
      intro s e h
      have hstep : ensureRun len index s (kind :: rest) =
          ensureRun len index (ensureStep len index s kind) rest := rfl
      rw [hstep]
      cases kind with
      | viaPrefetch =>
          have hhas : s.audioCache.has index = true := by
            rw [AudioLRUCache.has_eq_lookup_isSome, h]
            rfl
          have heq : ensureStep len index s .viaPrefetch = s :=
            prefetchGeminiSentence_of_has len s index hhas
          rw [heq]
          exact ih s e h
      | viaPlay =>
          have hplay := playSentenceEnsure_of_lookup_some s index e h
          have hrest := ih (playSentenceEnsure s index) e hplay.2
          refine ⟨?_, hrest.2⟩
          rw [show ensureStep len index s .viaPlay = playSentenceEnsure s index
            from rfl]
          rw [hrest.1, hplay.1]

/-- Helper: every default byte read from a byte list is at most 255. -/
theorem getD_byte_le (bytes : List Nat) (hb : ∀ b ∈ bytes, b < 256) (o : Nat) :
    bytes.getD o 0 ≤ 255 := by
  rw [List.getD_eq_getElem?_getD]
  cases hg : bytes[o]? with
  | none => simp
  | some b =>
      have hmem : b ∈ bytes := by
        obtain ⟨hn, rfl⟩ := List.getElem?_eq_some.mp hg
        exact List.getElem_mem hn
      have := hb b hmem
      simp only [Option.getD_some]
      omega

/-- Helper: a little-endian 16-bit read from bytes lies in the int16
range. -/
theorem getInt16LE_bounds (bytes : List Nat) (hb : ∀ b ∈ bytes, b < 256)
    (o : Nat) : -32768 ≤ getInt16LE bytes o ∧ getInt16LE bytes o ≤ 32767 := by
  have h1 := getD_byte_le bytes hb o
  have h2 := getD_byte_le bytes hb (o + 1)
  simp only [getInt16LE]
  split <;> refine ⟨?_, ?_⟩ <;> push_cast <;> omega

/-- Helper: the sample the loop writes at a valid index. -/
theorem decodeGeminiAudio_getD (bytes : List Nat) (i : Nat)
    (hi : i < bytes.length / 2) :
    (decodeGeminiAudio bytes).getD i 0 =
      (getInt16LE bytes (2 * i) : ℚ) / 32768 := by
  have hlt : 2 * i + 1 < bytes.length := by omega
  simp only [decodeGeminiAudio]
  rw [List.getD_eq_getElem?_getD, List.getElem?_map, List.getElem?_range hi]
  simp only [Option.map_some', Option.getD_some]
  rw [if_pos hlt]

/-- Helper: every written sample lies in the interval from -1 inclusive to
1 exclusive. -/
theorem decodeGeminiAudio_sample_bounds (bytes : List Nat)
    (hb : ∀ b ∈ bytes, b < 256) (i : Nat) (hi : i < bytes.length / 2) :
    (-1 : ℚ) ≤ (decodeGeminiAudio bytes).getD i 0
    ∧ (decodeGeminiAudio bytes).getD i 0 < 1 := by
  rw [decodeGeminiAudio_getD bytes i hi]
  obtain ⟨hlo, hhi⟩ := getInt16LE_bounds bytes hb (2 * i)
  have h32 : (0 : ℚ) < 32768 := by norm_num
  constructor
  · rw [le_div_iff₀ h32]
    have hc : ((-32768 : Int) : ℚ) ≤ ((getInt16LE bytes (2 * i) : Int) : ℚ) := by
      exact_mod_cast hlo
    push_cast at hc ⊢
    linarith
  · rw [div_lt_one h32]
    have hc : ((getInt16LE bytes (2 * i) : Int) : ℚ) ≤ ((32767 : Int) : ℚ) := by
      exact_mod_cast hhi
    push_cast at hc ⊢
    linarith

/-- Helper: an odd trailing byte contributes to no sample: decoding is
unchanged by truncating the buffer to the last even byte offset. -/
theorem decodeGeminiAudio_take (bytes : List Nat) :
    decodeGeminiAudio bytes =
      decodeGeminiAudio (bytes.take (2 * (bytes.length / 2))) := by
  have hle : 2 * (bytes.length / 2) ≤ bytes.length := by omega
  have htl : (bytes.take (2 * (bytes.length / 2))).length =
      2 * (bytes.length / 2) := by
    rw [List.length_take]
    exact Nat.min_eq_left hle
  simp only [decodeGeminiAudio, htl]
  have hm : 2 * (bytes.length / 2) / 2 = bytes.length / 2 := by omega
  rw [hm]
  apply List.map_congr_left
  intro i hi
  rw [List.mem_range] at hi
  have h1 : 2 * i + 1 < bytes.length := by omega
  have h2 : 2 * i + 1 < 2 * (bytes.length / 2) := by omega
  rw [if_pos h1, if_pos h2]
  have g1 : (bytes.take (2 * (bytes.length / 2))).getD (2 * i) 0 =
      bytes.getD (2 * i) 0 := by
    rw [List.getD_eq_getElem?_getD, List.getD_eq_getElem?_getD,
      List.getElem?_take, if_pos (by omega)]
  have g2 : (bytes.take (2 * (bytes.length / 2))).getD (2 * i + 1) 0 =
      bytes.getD (2 * i + 1) 0 := by
    rw [List.getD_eq_getElem?_getD, List.getD_eq_getElem?_getD,
      List.getElem?_take, if_pos (by omega)]
  simp only [getInt16LE, g1, g2]

/-- Helper: settling a failure resolves through the stored entry's
failure-handler flag. -/
theorem settleProducerFailure_of_lookup (s : PrefetchState) (index : Nat)
    (e : CachedPromise) (h : s.audioCache.lookup index = some e) :
    settleProducerFailure s index =
      if e.deleteOnFailure then { s with audioCache := s.audioCache.delete index }
      else s := by
  unfold settleProducerFailure
  rw [h]

/-- Claim C1, Scenario D evaluated on the code: playIndex(0) begins and
reaches Loading, stop() is called before the synthesis resolves, then the
pending synthesis for index 0 resolves.  The spec says the resolution must
be discarded: isPlaying stays false (which holds) and no audio device
activation occurs (which fails).  On the code the resolution passes both
staleness guards — stopAudio leaves activeIndexRef at 0, and the
closure-captured isPlaying is the stale value true from the render that
invoked playSentence — so source.start() runs: the device activation count
rises by one, a source node is installed and detectedEmotion is written
while isPlaying is false. -/
theorem C1_scenarioD_stale_resolution_starts_audio :
    scenarioD_stopped.playback.isPlaying = false
    ∧ scenarioD_token = 0
    ∧ scenarioD_closure.index = 0
    ∧ scenarioD_closure.isPlayingAtCapture = true
    ∧ scenarioD_resolved.audioStarts = scenarioD_stopped.audioStarts + 1
    ∧ scenarioD_resolved.refs.sourceNode = true
    ∧ scenarioD_resolved.playback.detectedEmotion = some "Calm"
    ∧ scenarioD_resolved.playback.isPlaying = false := by
  decide

/-- Claim C2: starting from the empty cache, no sequence of interface
operations ever pushes the entry count above a positive configured capacity
(the app constructs the cache with capacity 50); and inserting more
distinct keys than the capacity leaves the size exactly at capacity with
the retained keys exactly the most recently inserted capacity of them, the
least recently accessed having been evicted first. -/
theorem C2_cache_bounded_lru_eviction (V : Type) (cap : Nat) (hcap : 1 ≤ cap) :
    (∀ ops : List (LRUOp V),
      ((AudioLRUCache.empty V cap).applyOps ops).size ≤ cap)
    ∧ (∀ kvs : List (Nat × V), (kvs.map Prod.fst).Nodup → cap < kvs.length →
      ((AudioLRUCache.empty V cap).insertAll kvs).size = cap
      ∧ ((AudioLRUCache.empty V cap).insertAll kvs).keys =
          (kvs.map Prod.fst).drop (kvs.length - cap)) := by
  constructor
  · intro ops
    exact AudioLRUCache.size_applyOps_le ops _ hcap (Nat.zero_le cap)
  · intro kvs hnodup hlen
    have hkeys := AudioLRUCache.insertAll_keys_drop kvs
      (AudioLRUCache.empty V cap) hcap (Nat.zero_le cap)
      (by simpa [AudioLRUCache.keys, AudioLRUCache.empty] using hnodup)
    have h0 : (AudioLRUCache.empty V cap).keys = ([] : List Nat) := rfl
    have h1 : (AudioLRUCache.empty V cap).size = 0 := rfl
    have h2 : (AudioLRUCache.empty V cap).capacity = cap := rfl
    rw [h0, h1, h2] at hkeys
    simp only [List.nil_append, Nat.zero_add] at hkeys
    have hsz : (((AudioLRUCache.empty V cap).insertAll kvs)).size =
        (((AudioLRUCache.empty V cap).insertAll kvs)).keys.length := by
      unfold AudioLRUCache.size AudioLRUCache.keys
      rw [List.length_map]
    refine ⟨?_, hkeys⟩
    rw [hsz, hkeys, List.length_drop, List.length_map]
    omega

/-- Witness for C2: Scenario C of the spec, capacity 2 with keys 0, 1, 2
inserted, retains exactly the keys 1 and 2; and a concrete operation
sequence on the configured capacity 50 stays within bound. -/
theorem C2_cache_bounded_lru_eviction_witness :
    ((AudioLRUCache.empty Unit 2).insertAll [(0, ()), (1, ()), (2, ())]).size = 2
    ∧ ((AudioLRUCache.empty Unit 2).insertAll
        [(0, ()), (1, ()), (2, ())]).keys = [1, 2]
    ∧ ((AudioLRUCache.empty Unit 50).applyOps
        [.setOp 0 (), .getOp 0, .setOp 1 (), .deleteOp 0]).size ≤ 50 := by
  have h2 := C2_cache_bounded_lru_eviction Unit 2 (by decide)
  have h50 := C2_cache_bounded_lru_eviction Unit 50 (by decide)
  have hpart := h2.2 [(0, ()), (1, ()), (2, ())] (by decide) (by decide)
  refine ⟨hpart.1, ?_, h50.1 [.setOp 0 (), .getOp 0, .setOp 1 (), .deleteOp 0]⟩
  have hk := hpart.2
  simpa using hk

/-- Counterexample to claim C3: an entry created by the playSentence
active-index play path is NOT removed from the cache when its producer
fails.  With a fresh state, a play-path request for index 0 creates the
entry; settling its producer's failure leaves the entry for index 0 present
(still holding the rejected promise), where the claim requires removal. -/
theorem C3_counterexample_play_created_entry_kept :
    (settleProducerFailure
        (playSentenceEnsure
          { audioCache := AudioLRUCache.empty CachedPromise 50,
            producerCalls := 0 } 0) 0).audioCache.has 0 = true := by
  decide

/-- Claim C3 as amended: when the producer for an index fails, the cache
entry is removed only if the entry was created by prefetchGeminiSentence
(whose stored promise carries the deleting catch handler), so that path
retries from scratch; an entry created by the playSentence cache-miss path
has no such handler — the failure leaves the whole state unchanged, and a
later play-path request for that index finds the entry and does not
re-invoke the producer. -/
theorem C3_failure_removes_only_prefetch_entries (len index : Nat)
    (s : PrefetchState) (h : s.audioCache.lookup index = none) :
    (index < len →
      (settleProducerFailure (prefetchGeminiSentence len s index)
        index).audioCache.has index = false)
    ∧ settleProducerFailure (playSentenceEnsure s index) index =
        playSentenceEnsure s index
    ∧ (playSentenceEnsure
          (settleProducerFailure (playSentenceEnsure s index) index)
          index).producerCalls =
        (playSentenceEnsure s index).producerCalls := by
  have hplay := playSentenceEnsure_of_lookup_none s index h
  have hlook2 : (playSentenceEnsure s index).audioCache.lookup index =
      some { producerId := s.producerCalls, deleteOnFailure := false } := by
    rw [hplay]
    exact AudioLRUCache.lookup_set_self s.audioCache index
      { producerId := s.producerCalls, deleteOnFailure := false }
  have hsettle : settleProducerFailure (playSentenceEnsure s index) index =
      playSentenceEnsure s index := by
    rw [settleProducerFailure_of_lookup (playSentenceEnsure s index) index _
      hlook2]
    rw [if_neg (by simp)]
  refine ⟨?_, hsettle, ?_⟩
  · intro hlt
    have hpre := prefetchGeminiSentence_of_lookup_none len s index h hlt
    have hlook1 : (prefetchGeminiSentence len s index).audioCache.lookup index =
        some { producerId := s.producerCalls, deleteOnFailure := true } := by
      rw [hpre]
      exact AudioLRUCache.lookup_set_self s.audioCache index
        { producerId := s.producerCalls, deleteOnFailure := true }
    rw [settleProducerFailure_of_lookup _ index _ hlook1]
    rw [if_pos rfl]
    exact AudioLRUCache.has_delete_self _ index
  · rw [hsettle]
    exact (playSentenceEnsure_of_lookup_some (playSentenceEnsure s index) index
      { producerId := s.producerCalls, deleteOnFailure := false } hlook2).1

/-- Witness for C3 at a concrete instance: with one segment and the empty
cache, a prefetch-created entry for index 0 is gone after its failure and a
play-created entry survives its failure unchanged. -/
theorem C3_failure_removes_only_prefetch_entries_witness :
    (settleProducerFailure
        (prefetchGeminiSentence 1
          { audioCache := AudioLRUCache.empty CachedPromise 50,
            producerCalls := 0 } 0) 0).audioCache.has 0 = false
    ∧ settleProducerFailure
        (playSentenceEnsure
          { audioCache := AudioLRUCache.empty CachedPromise 50,
            producerCalls := 0 } 0) 0 =
      playSentenceEnsure
        { audioCache := AudioLRUCache.empty CachedPromise 50,
          producerCalls := 0 } 0 := by
  have h := C3_failure_removes_only_prefetch_entries 1 0
    { audioCache := AudioLRUCache.empty CachedPromise 50, producerCalls := 0 }
    (by decide)
  exact ⟨h.1 (by decide), h.2.1⟩

/-- Claim C4: the producer is invoked exactly once per index: while the
entry for an index is present (pending or resolved), any sequence of
ensure-style requests for it — prefetch calls or play-path calls — invokes
the producer zero further times and returns the stored entry unchanged; and
starting with no entry, any nonempty request sequence for an in-range index
invokes the producer exactly once in total. -/
theorem C4_producer_invoked_exactly_once (len index : Nat) (s : PrefetchState)
    (kinds : List EnsureKind) :
    (∀ e : CachedPromise, s.audioCache.lookup index = some e →
      (ensureRun len index s kinds).producerCalls = s.producerCalls
      ∧ (ensureRun len index s kinds).audioCache.lookup index = some e)
    ∧ (s.audioCache.lookup index = none → index < len → kinds ≠ [] →
      (ensureRun len index s kinds).producerCalls = s.producerCalls + 1) := by
  constructor
  · intro e h
    exact ensureRun_stable len index kinds s e h
  · intro h hlt hne
    cases kinds with
    | nil => exact absurd rfl hne
    | cons kind rest =>
        have hstep : ensureRun len index s (kind :: rest) =
            ensureRun len index (ensureStep len index s kind) rest := rfl
        rw [hstep]
        cases kind with
        | viaPrefetch =>
            rw [show ensureStep len index s .viaPrefetch =
                prefetchGeminiSentence len s index from rfl,
              prefetchGeminiSentence_of_lookup_none len s index h hlt]
            have hl := AudioLRUCache.lookup_set_self s.audioCache index
              { producerId := s.producerCalls, deleteOnFailure := true }
            have hrun := ensureRun_stable len index rest
              { audioCache := s.audioCache.set index
                  { producerId := s.producerCalls, deleteOnFailure := true },
                producerCalls := s.producerCalls + 1 }
              { producerId := s.producerCalls, deleteOnFailure := true } hl
            rw [hrun.1]
        | viaPlay =>
            rw [show ensureStep len index s .viaPlay =
                playSentenceEnsure s index from rfl,
              playSentenceEnsure_of_lookup_none s index h]
            have hl := AudioLRUCache.lookup_set_self s.audioCache index
              { producerId := s.producerCalls, deleteOnFailure := false }
            have hrun := ensureRun_stable len index rest
              { audioCache := s.audioCache.set index
                  { producerId := s.producerCalls, deleteOnFailure := false },
                producerCalls := s.producerCalls + 1 }
              { producerId := s.producerCalls, deleteOnFailure := false } hl
            rw [hrun.1]

/-- Witness for C4: with one segment and the empty state, a play request
followed by rapid repeats through both paths invokes the producer exactly
once. -/
theorem C4_producer_invoked_exactly_once_witness :
    (ensureRun 1 0
      { audioCache := AudioLRUCache.empty CachedPromise 50, producerCalls := 0 }
      [.viaPlay, .viaPrefetch, .viaPlay, .viaPrefetch]).producerCalls = 1 := by
  have h := C4_producer_invoked_exactly_once 1 0
    { audioCache := AudioLRUCache.empty CachedPromise 50, producerCalls := 0 }
    [.viaPlay, .viaPrefetch, .viaPlay, .viaPrefetch]
  exact h.2 (by decide) (by decide) (List.cons_ne_nil _ _)

/-- Claim C5: playNext from the last valid index stops playback and resets
the index to 0 — an in-range value, ready to replay without auto-restart —
and from any index whose successor is in range it only increments the
index, leaving every other field unchanged. -/
theorem C5_advance_end_resets_to_zero (len : Nat) (p : PlaybackState) :
    (p.currentIndex = (len : Int) - 1 → 1 ≤ len →
      playNext len p = { p with isPlaying := false, currentIndex := 0 }
      ∧ 0 ≤ (playNext len p).currentIndex
      ∧ (playNext len p).currentIndex < (len : Int))
    ∧ (p.currentIndex + 1 < (len : Int) →
      playNext len p = { p with currentIndex := p.currentIndex + 1 }) := by
  constructor
  · intro h hlen
    have hcond : ¬(p.currentIndex + 1 < (len : Int)) := by
      rw [h]
      omega
    have heq : playNext len p = { p with isPlaying := false, currentIndex := 0 } := by
      simp only [playNext]
      rw [if_neg hcond]
    refine ⟨heq, ?_, ?_⟩
    · rw [heq]
    · rw [heq]
      show (0 : Int) < (len : Int)
      omega
  · intro h
    simp only [playNext]
    rw [if_pos h]

/-- Witness for C5: with two segments, advancing from index 1 stops and
resets to 0; advancing from index 0 only increments to 1. -/
theorem C5_advance_end_resets_to_zero_witness :
    playNext 2
        { isPlaying := true, isLoading := false, currentIndex := 1,
          detectedEmotion := none } =
      { isPlaying := false, isLoading := false, currentIndex := 0,
        detectedEmotion := none }
    ∧ playNext 2
        { isPlaying := true, isLoading := false, currentIndex := 0,
          detectedEmotion := none } =
      { isPlaying := true, isLoading := false, currentIndex := 1,
        detectedEmotion := none } := by
  have hend := C5_advance_end_resets_to_zero 2
    { isPlaying := true, isLoading := false, currentIndex := 1,
      detectedEmotion := none }
  have hmid := C5_advance_end_resets_to_zero 2
    { isPlaying := true, isLoading := false, currentIndex := 0,
      detectedEmotion := none }
  exact ⟨(hend.1 (by decide) (by decide)).1, hmid.2 (by decide)⟩

/-- Claim C6: playSentence rejects an index outside the segment range with
no effect and no synthesis, and treats a segment whose text is empty or
whitespace-only as a completed play: the state advances by exactly the
playNext transition (one scheduling step) and no synthesis backend is ever
reached. -/
theorem C6_out_of_range_reject_and_blank_skip (segments : List String)
    (index : Int) (p : PlaybackState) :
    ((index < 0 ∨ (segments.length : Int) ≤ index) →
      playSentenceEntry segments index p = (p, false))
    ∧ (0 ≤ index → index < (segments.length : Int) →
      jsTrim (segments.getD index.toNat "") = "" →
      playSentenceEntry segments index p = (playNext segments.length p, false)) := by
  constructor
  · intro h
    simp only [playSentenceEntry]
    rw [if_pos h]
  · intro h1 h2 h3
    simp only [playSentenceEntry]
    rw [if_neg (by omega), if_pos h3]

/-- Witness for C6: Scenario B's document: the empty segment at index 0 is
skipped by exactly a playNext step with no synthesis, and index 5 is
rejected with no effect. -/
theorem C6_out_of_range_reject_and_blank_skip_witness :
    playSentenceEntry ["", "Real text."] 0
        { isPlaying := true, isLoading := false, currentIndex := 0,
          detectedEmotion := none } =
      (playNext 2
        { isPlaying := true, isLoading := false, currentIndex := 0,
          detectedEmotion := none }, false)
    ∧ playSentenceEntry ["", "Real text."] 5
        { isPlaying := true, isLoading := false, currentIndex := 0,
          detectedEmotion := none } =
      ({ isPlaying := true, isLoading := false, currentIndex := 0,
         detectedEmotion := none }, false) := by
  have hblank := C6_out_of_range_reject_and_blank_skip ["", "Real text."] 0
    { isPlaying := true, isLoading := false, currentIndex := 0,
      detectedEmotion := none }
  have hoor := C6_out_of_range_reject_and_blank_skip ["", "Real text."] 5
    { isPlaying := true, isLoading := false, currentIndex := 0,
      detectedEmotion := none }
  exact ⟨hblank.2 (by decide) (by decide) (by decide),
    hoor.1 (Or.inr (by decide))⟩

/-- Claim C7: stopAudio halts all three output kinds (browser utterance,
audio element, source node), sets isPlaying and isLoading to false, clears
the detected tone label, leaves currentIndex and the device-activation
count unchanged, and is idempotent — calling it when nothing is playing
yields the same state, with no audio-side effect. -/
theorem C7_stop_halts_all_outputs (s : AppState) :
    (stopAudio s).playback.isPlaying = false
    ∧ (stopAudio s).playback.isLoading = false
    ∧ (stopAudio s).playback.detectedEmotion = none
    ∧ (stopAudio s).playback.currentIndex = s.playback.currentIndex
    ∧ (stopAudio s).refs.synthSpeaking = false
    ∧ (stopAudio s).refs.audioElem = false
    ∧ (stopAudio s).refs.sourceNode = false
    ∧ (stopAudio s).audioStarts = s.audioStarts
    ∧ stopAudio (stopAudio s) = stopAudio s := by
  exact ⟨rfl, rfl, rfl, rfl, rfl, rfl, rfl, rfl, rfl⟩

/-- Claim C8: whenever a settings update changes the target engine or the
Gemini voice — the two settings that change the cached synthesis output —
the effect clears the prefetch cache, so no previously cached audio is
retrievable afterwards. -/
theorem C8_settings_change_clears_cache (oldS newS : AppSettings)
    (c : AudioLRUCache CachedPromise) (k : Nat)
    (h : newS.engine ≠ oldS.engine ∨ newS.googleVoice ≠ oldS.googleVoice) :
    (settingsCacheClearEffect oldS newS c).lookup k = none
    ∧ (settingsCacheClearEffect oldS newS c).size = 0 := by
  have hcond : ¬(newS.googleVoice = oldS.googleVoice
      ∧ newS.engine = oldS.engine) := by
    tauto
  unfold settingsCacheClearEffect
  rw [if_neg hcond]
  exact ⟨rfl, rfl⟩

/-- Witness for C8: switching the engine from google to browser empties a
cache that held an entry for index 3. -/
theorem C8_settings_change_clears_cache_witness :
    (settingsCacheClearEffect
        { engine := .google, browserVoice := none, openaiKey := "",
          openaiVoice := "alloy", googleVoice := "Puck", rate := 1, pitch := 1 }
        { engine := .browser, browserVoice := none, openaiKey := "",
          openaiVoice := "alloy", googleVoice := "Puck", rate := 1, pitch := 1 }
        ((AudioLRUCache.empty CachedPromise 50).set 3
          { producerId := 0, deleteOnFailure := true })).lookup 3 = none := by
  exact (C8_settings_change_clears_cache
    { engine := .google, browserVoice := none, openaiKey := "",
      openaiVoice := "alloy", googleVoice := "Puck", rate := 1, pitch := 1 }
    { engine := .browser, browserVoice := none, openaiKey := "",
      openaiVoice := "alloy", googleVoice := "Puck", rate := 1, pitch := 1 }
    ((AudioLRUCache.empty CachedPromise 50).set 3
      { producerId := 0, deleteOnFailure := true }) 3
    (Or.inl (by decide))).1

/-- Claim C9: detectEmotion is total — it resolves for every outcome of the
model call and never rejects: a failed call yields Neutral, a missing text
yields Neutral, a text that trims to the empty string yields Neutral (the
JavaScript || fallback on the falsy empty string), and otherwise the
trimmed response text is returned. -/
theorem C9_detectEmotion_total_neutral_fallback (t : String) :
    detectEmotion .failure = "Neutral"
    ∧ detectEmotion (.success none) = "Neutral"
    ∧ (jsTrim t = "" → detectEmotion (.success (some t)) = "Neutral")
    ∧ (jsTrim t ≠ "" → detectEmotion (.success (some t)) = jsTrim t) := by
  refine ⟨rfl, rfl, ?_, ?_⟩
  · intro h
    show (if jsTrim t = "" then "Neutral" else jsTrim t) = "Neutral"
    rw [if_pos h]
  · intro h
    show (if jsTrim t = "" then "Neutral" else jsTrim t) = jsTrim t
    rw [if_neg h]

/-- Witness for C9: a padded response trims to its adjective; a
whitespace-only response falls back to Neutral. -/
theorem C9_detectEmotion_total_neutral_fallback_witness :
    detectEmotion (.success (some " Happy ")) = "Happy"
    ∧ detectEmotion (.success (some "   ")) = "Neutral" := by
  constructor
  · have h := (C9_detectEmotion_total_neutral_fallback " Happy ").2.2.2
      (by decide)
    rw [h]
    decide
  · exact (C9_detectEmotion_total_neutral_fallback "   ").2.2.1 (by decide)

/-- Claim C10 as amended: for a byte buffer of length L, decodeGeminiAudio
yields exactly floor(L / 2) samples; every sample i is the little-endian
signed 16-bit integer at byte offset 2i divided by 32768 and lies in the
interval from -1 inclusive to 1 exclusive; an odd trailing byte is ignored
— it contributes to no sample and decoding equals decoding the buffer
truncated to the last even offset — rather than causing an out-of-bounds
read.  (Every one of the floor(L / 2) samples is written; none is left at
zero by the trailing byte.) -/
theorem C10_decode_pcm_sample_format (bytes : List Nat)
    (hb : ∀ b ∈ bytes, b < 256) :
    (decodeGeminiAudio bytes).length = bytes.length / 2
    ∧ (∀ i, i < bytes.length / 2 →
        (decodeGeminiAudio bytes).getD i 0 =
          (getInt16LE bytes (2 * i) : ℚ) / 32768
        ∧ (-1 : ℚ) ≤ (decodeGeminiAudio bytes).getD i 0
        ∧ (decodeGeminiAudio bytes).getD i 0 < 1)
    ∧ decodeGeminiAudio bytes =
        decodeGeminiAudio (bytes.take (2 * (bytes.length / 2))) := by
  refine ⟨?_, ?_, decodeGeminiAudio_take bytes⟩
  · simp [decodeGeminiAudio]
  · intro i hi
    exact ⟨decodeGeminiAudio_getD bytes i hi,
      (decodeGeminiAudio_sample_bounds bytes hb i hi).1,
      (decodeGeminiAudio_sample_bounds bytes hb i hi).2⟩

/-- Counterexample to claim C10 as stated: on the 3-byte buffer 01 00 FF
the trailing byte is odd, yet the last (only) sample is written from the
first two bytes and equals 1 / 32768, not 0 — the claim's parenthetical
"the last sample stays 0" is false; all floor(L / 2) samples are
written. -/
theorem C10_counterexample_last_sample_not_zero :
    [1, 0, 255].length % 2 = 1
    ∧ decodeGeminiAudio [1, 0, 255] = [(1 : ℚ) / 32768]
    ∧ (1 : ℚ) / 32768 ≠ 0 := by
  refine ⟨by decide, ?_, by norm_num⟩
  norm_num [decodeGeminiAudio, getInt16LE, List.range_succ]

/-- Witness for C10 at the concrete buffer 10 27 (the int16 value 10000):
one sample, equal to 10000 / 32768, inside the unit interval bounds. -/
theorem C10_decode_pcm_sample_format_witness :
    (decodeGeminiAudio [16, 39]).length = 1
    ∧ (decodeGeminiAudio [16, 39]).getD 0 0 =
        (getInt16LE [16, 39] 0 : ℚ) / 32768
    ∧ (-1 : ℚ) ≤ (decodeGeminiAudio [16, 39]).getD 0 0
    ∧ (decodeGeminiAudio [16, 39]).getD 0 0 < 1 := by
  have h := C10_decode_pcm_sample_format [16, 39] (by decide)
  have h0 := h.2.1 0 (by decide)
  exact ⟨h.1, h0.1, h0.2.1, h0.2.2⟩
